import Mathlib

/-! # Sales forecast application: storage model and request handlers

A shallow embedding of `src/index.js` (the Express server) and of the one
client helper of `src/client/src/App.jsx` that the specification refers to.

* The three tables `users`, `whitelist`, `forecasts` are lists of rows, in
  table order.  Every SQL statement the server sends is a function on these
  lists.
* `NOW()` is an explicit argument `now` of the handler that uses it.
* `req.user` is an `Option User`: `none` when the request carries no session
  (or the session names no user row), `some u` with the row loaded by
  `deserializeUser` otherwise.
* A handler returns the store after the request together with the response.
  Storage failures (a lost connection, a rejected statement) are outside the
  model: every statement succeeds.
-/

namespace SalesForecast

/-! ## Data model -/

/-- A calendar date as the `YYYY-MM-DD` value of a date input. -/
structure Date where
  year : Nat
  month : Nat
  day : Nat
deriving DecidableEq, Repr

/-- Modelled from the spec: the `CREATE TABLE` statements are not in the
repository.  The columns of `users` are the ones the queries name:
`id`, `google_id`, `email`, `display_name`, `role` (the server compares it as a
string) and the nullable `manager_id`. -/
structure User where
  id : Nat
  google_id : String
  email : String
  display_name : String
  role : String
  manager_id : Option Nat
deriving DecidableEq, Repr

/-- Modelled from the spec: a row of `whitelist`, of which the server reads and
writes the `email` column only. -/
structure WhitelistEntry where
  email : String
deriving DecidableEq, Repr

/-- Modelled from the spec: a row of `forecasts`.  The three amounts are
nullable numbers (a request body may leave a field out), `updated_at` is the
value of `NOW()` at the last write. -/
structure Forecast where
  user_id : Nat
  period_month : Date
  quota : Option Int
  commit_amount : Option Int
  best_case : Option Int
  updated_at : Nat
deriving DecidableEq, Repr

/-- The persistent state: the three tables. -/
structure Store where
  users : List User
  whitelist : List WhitelistEntry
  forecasts : List Forecast
deriving DecidableEq, Repr

/-- One row of the rollup result and one record of the CSV export:
`display_name, quota, commit_amount, best_case`. -/
structure RollupRow where
  display_name : String
  quota : Option Int
  commit_amount : Option Int
  best_case : Option Int
deriving DecidableEq, Repr

/-- What a handler sends back. -/
inductive Body where
  | text (s : String)
  | success
  | rows (rs : List RollupRow)
  | csv (attachment : String) (fields : List String) (records : List RollupRow)
deriving DecidableEq, Repr

/-- An HTTP response: status code and body (`res.send` alone answers 200). -/
structure Response where
  status : Nat
  body : Body
deriving DecidableEq, Repr

/-- The JSON body of `POST /api/forecast`: `{period, quota, commit, best_case}`. -/
structure ForecastBody where
  period : Date
  quota : Option Int
  commit : Option Int
  best_case : Option Int
deriving DecidableEq, Repr

/-! ## Sessions -/

/-- `passport.deserializeUser`: `SELECT * FROM users WHERE id = $1`, first row. -/
def deserializeUser (s : Store) (id : Nat) : Option User :=
  (s.users.filter (fun u => decide (u.id = id))).head?

/-! ## Forecast service -/

/-- The conflict target of the upsert: a row with this `(user_id, period_month)`. -/
def sameKey (uid : Nat) (p : Date) (f : Forecast) : Bool :=
  decide (f.user_id = uid) && decide (f.period_month = p)

/-- The rows of `forecasts` stored under a key. -/
def rowsFor (fs : List Forecast) (uid : Nat) (p : Date) : List Forecast :=
  fs.filter (sameKey uid p)

/-- The `DO UPDATE SET quota = $3, commit_amount = $4, best_case = $5,
updated_at = NOW()` branch, applied to a conflicting row. -/
def doUpdate (uid : Nat) (p : Date) (q c b : Option Int) (now : Nat) (f : Forecast) : Forecast :=
  if sameKey uid p f then
    { f with quota := q, commit_amount := c, best_case := b, updated_at := now }
  else f

/-- `INSERT INTO forecasts (...) VALUES ($1, $2, $3, $4, $5, NOW())
ON CONFLICT (user_id, period_month) DO UPDATE SET ...`. -/
def upsertForecast (fs : List Forecast) (uid : Nat) (p : Date) (q c b : Option Int)
    (now : Nat) : List Forecast :=
  if fs.any (sameKey uid p) then fs.map (doUpdate uid p q c b now)
  else fs ++ [{ user_id := uid, period_month := p, quota := q, commit_amount := c,
                best_case := b, updated_at := now }]

/-- `app.post('/api/forecast')`. -/
def postForecast (s : Store) (reqUser : Option User) (body : ForecastBody) (now : Nat) :
    Store × Response :=
  match reqUser with
  | none => (s, { status := 401, body := Body.text "Unauthorized" })
  | some u =>
    ({ s with forecasts :=
        upsertForecast s.forecasts u.id body.period body.quota body.commit body.best_case now },
     { status := 200, body := Body.success })

/-- `ForecastForm.getCurrentMonth` of the client: from `getFullYear()` and the
zero-based `getMonth()` of today, the date `YYYY-(MM+1)-01`. -/
def getCurrentMonth (fullYear monthIndex : Nat) : Date :=
  { year := fullYear, month := monthIndex + 1, day := 1 }

/-! ## Rollup service -/

/-- The result of `FROM users u LEFT JOIN forecasts f ON u.id = f.user_id`: every
user with each of its forecast rows, or once with no row when it has none. -/
def leftJoin (us : List User) (fs : List Forecast) : List (User × Option Forecast) :=
  us.flatMap fun u =>
    match fs.filter (fun f => decide (u.id = f.user_id)) with
    | [] => [(u, none)]
    | m :: ms => (m :: ms).map fun f => (u, some f)

/-- The result of `FROM users u JOIN forecasts f ON u.id = f.user_id`. -/
def innerJoin (us : List User) (fs : List Forecast) : List (User × Forecast) :=
  us.flatMap fun u => (fs.filter (fun f => decide (u.id = f.user_id))).map fun f => (u, f)

/-- The `WHERE u.manager_id = $1` test; a null `manager_id` equals nothing. -/
def managedBy (mid : Nat) (u : User) : Bool :=
  decide (u.manager_id = some mid)

/-- The value of `f.commit_amount` in a joined row, null where `f` is absent. -/
def commitOf (r : User × Option Forecast) : Option Int :=
  r.2.bind fun f => f.commit_amount

/-- The order PostgreSQL gives to `DESC`: larger first, where a null counts
as larger than every number (`NULLS FIRST` is the default of `DESC`). -/
def descNullsFirst : Option Int → Option Int → Bool
  | none, _ => true
  | some _, none => false
  | some x, some y => decide (y ≤ x)

/-- The `ORDER BY f.commit_amount DESC` relation on joined rows. -/
def orderByCommitDesc (a b : User × Option Forecast) : Prop :=
  descNullsFirst (commitOf a) (commitOf b) = true

instance orderByCommitDescDecidable : DecidableRel orderByCommitDesc :=
  fun a b => inferInstanceAs (Decidable (descNullsFirst (commitOf a) (commitOf b) = true))

/-- The select list `u.display_name, f.quota, f.commit_amount, f.best_case`. -/
def selectRollup (r : User × Option Forecast) : RollupRow :=
  { display_name := r.1.display_name
    quota := r.2.bind fun f => f.quota
    commit_amount := r.2.bind fun f => f.commit_amount
    best_case := r.2.bind fun f => f.best_case }

/-- The joined rows of the rollup query after `WHERE` and `ORDER BY`. -/
def rollupJoined (s : Store) (mid : Nat) : List (User × Option Forecast) :=
  ((leftJoin s.users s.forecasts).filter (fun r => managedBy mid r.1)).insertionSort
    orderByCommitDesc

/-- The query of `GET /api/rollup` with `$1 = mid`. -/
def rollupQuery (s : Store) (mid : Nat) : List RollupRow :=
  (rollupJoined s mid).map selectRollup

/-- `app.get('/api/rollup')`. -/
def getRollup (s : Store) (reqUser : Option User) : Store × Response :=
  match reqUser with
  | none => (s, { status := 403, body := Body.text "Access Denied" })
  | some u =>
    if u.role = "Individual" then (s, { status := 403, body := Body.text "Access Denied" })
    else (s, { status := 200, body := Body.rows (rollupQuery s u.id) })

/-- A row of the export query:
`u.display_name, f.period_month, f.quota, f.commit_amount, f.best_case`. -/
structure ExportRow where
  display_name : String
  period_month : Date
  quota : Option Int
  commit_amount : Option Int
  best_case : Option Int
deriving DecidableEq, Repr

/-- The query of `GET /api/export` with `$1 = mid`. -/
def exportQuery (s : Store) (mid : Nat) : List ExportRow :=
  ((innerJoin s.users s.forecasts).filter (fun r => managedBy mid r.1)).map fun r =>
    { display_name := r.1.display_name, period_month := r.2.period_month, quota := r.2.quota,
      commit_amount := r.2.commit_amount, best_case := r.2.best_case }

/-- The `fields` option given to the CSV writer. -/
def csvFields : List String :=
  ["display_name", "quota", "commit_amount", "best_case"]

/-- The records `new Parser({ fields }).parse(rows)` writes: of every row the
four listed fields, in the listed order. -/
def parse (rows : List ExportRow) : List RollupRow :=
  rows.map fun r =>
    { display_name := r.display_name, quota := r.quota, commit_amount := r.commit_amount,
      best_case := r.best_case }

/-- `app.get('/api/export')`. -/
def getExport (s : Store) (reqUser : Option User) : Store × Response :=
  match reqUser with
  | none => (s, { status := 403, body := Body.text "Access Denied" })
  | some u =>
    if u.role = "Individual" then (s, { status := 403, body := Body.text "Access Denied" })
    else (s, { status := 200,
               body := Body.csv "forecast.csv" csvFields (parse (exportQuery s u.id)) })

/-! ## Admin service -/

/-- `app.post('/api/admin/whitelist')`. -/
def postAdminWhitelist (s : Store) (reqUser : Option User) (email : String) :
    Store × Response :=
  match reqUser with
  | none => (s, { status := 403, body := Body.text "Admin only" })
  | some u =>
    if u.role ≠ "Admin" then (s, { status := 403, body := Body.text "Admin only" })
    else ({ s with whitelist := s.whitelist ++ [{ email := email }] },
          { status := 200, body := Body.success })

/-! ## Auth gateway -/

/-- The identity the provider asserts: `profile.id`, the values of
`profile.emails`, `profile.displayName`. -/
structure Profile where
  id : String
  emails : List String
  displayName : String
deriving DecidableEq, Repr

/-- How the verify callback ends: `done(null, false)`, `done(null, user)`, or
an exception where `profile.emails[0]` does not exist. -/
inductive Done where
  | rejected
  | user (u : User)
  | threw
deriving DecidableEq, Repr

/-- The `id` the database gives to an inserted user row: one not in the table. -/
def nextUserId (us : List User) : Nat :=
  (us.map fun u => u.id).foldr max 0 + 1

/-- The verify callback of the `GoogleStrategy`. -/
def verify (s : Store) (profile : Profile) : Store × Done :=
  match profile.emails with
  | [] => (s, Done.threw)
  | email :: _ =>
    if (s.whitelist.filter (fun w => decide (w.email = email))).length = 0 then
      (s, Done.rejected)
    else
      match s.users.filter (fun u => decide (u.google_id = profile.id)) with
      | existing :: _ => (s, Done.user existing)
      | [] =>
        let newUser : User :=
          { id := nextUserId s.users, google_id := profile.id, email := email,
            display_name := profile.displayName, role := "Individual", manager_id := none }
        ({ s with users := s.users ++ [newUser] }, Done.user newUser)

/-! ## Properties named by the specification -/

/-- Whether a response grants access (it is not a refusal). -/
def granted (r : Response) : Bool :=
  decide (r.status = 200)

/-- The rows a response carries: the rollup rows or the CSV records. -/
def dataOf (r : Response) : List RollupRow :=
  match r.body with
  | Body.rows rs => rs
  | Body.csv _ _ records => records
  | _ => []

/-- The invariant of `forecasts`: at most one row per `(user_id, period_month)`. -/
def OneRowPerKey (fs : List Forecast) : Prop :=
  ∀ uid p, (rowsFor fs uid p).length ≤ 1

/-- The first day of the calendar month of a date (the normal form the
specification gives for a period). -/
def firstOfMonth (d : Date) : Date :=
  { d with day := 1 }

/-- The records of the export are, as a multiset, the rows of the rollup for the
same caller. -/
def ExportMatchesRollup (s : Store) (reqUser : Option User) : Prop :=
  (dataOf (getExport s reqUser).2).Perm (dataOf (getRollup s reqUser).2)

/-- The normalisation the specification states, for one request: every row the
request leaves in `forecasts` that was not there before has the first day of the
submitted date's month as its `period_month`. -/
def WritesFirstOfMonth (s : Store) (u : User) (body : ForecastBody) (now : Nat) : Prop :=
  ∀ f ∈ (postForecast s (some u) body now).1.forecasts,
    f ∉ s.forecasts → f.period_month = firstOfMonth body.period

/-- A forecast row without its timestamp. -/
def eraseTimestamp (f : Forecast) : Forecast :=
  { f with updated_at := 0 }

/-- The direct reports of a user: the rows of `users` whose `manager_id` is its id. -/
def directReports (s : Store) (mid : Nat) : List User :=
  s.users.filter (managedBy mid)

/-- The forecast rows of one user. -/
def forecastsOf (fs : List Forecast) (u : User) : List Forecast :=
  fs.filter fun f => decide (f.user_id = u.id)

/-- The rollup row built from a report and one of its forecast rows. -/
def rowOf (u : User) (f : Forecast) : RollupRow :=
  { display_name := u.display_name, quota := f.quota, commit_amount := f.commit_amount,
    best_case := f.best_case }

/-- The rollup row of a report that has no forecast row. -/
def nullRow (u : User) : RollupRow :=
  { display_name := u.display_name, quota := none, commit_amount := none, best_case := none }

/-- The rows the specification gives one report in the rollup: a single row of
nulls when it has no forecast row, otherwise one row per forecast row. -/
def reportRows (fs : List Forecast) (u : User) : List RollupRow :=
  if forecastsOf fs u = [] then [nullRow u] else (forecastsOf fs u).map (rowOf u)

/-- The order the specification gives the rollup: descending commit amount, every
row with a commit amount before every row without one. -/
def descNullsLast : Option Int → Option Int → Bool
  | some x, some y => decide (y ≤ x)
  | some _, none => true
  | none, some _ => false
  | none, none => true

/-- The rows of a report that come from its forecast rows: none when it has none. -/
def forecastRows (fs : List Forecast) (u : User) : List RollupRow :=
  (forecastsOf fs u).map (rowOf u)

/-- The row a joined row of the rollup gives when it holds a forecast row. -/
def forecastRow? (r : User × Option Forecast) : Option RollupRow :=
  r.2.map (rowOf r.1)

/-- The rows are in the order the specification states. -/
def NonNullCommitFirst (rs : List RollupRow) : Prop :=
  rs.Pairwise fun a b => descNullsLast a.commit_amount b.commit_amount = true

/-- The rows are in the order of `ORDER BY commit_amount DESC`. -/
def CommitDescending (rs : List RollupRow) : Prop :=
  rs.Pairwise fun a b => descNullsFirst a.commit_amount b.commit_amount = true


/-! ## Example data -/

/-- A manager with id 1. -/
def exManager : User :=
  { id := 1, google_id := "g-m", email := "m@example.com", display_name := "M",
    role := "Manager", manager_id := none }

/-- Report A of the manager. -/
def exRepA : User :=
  { id := 2, google_id := "g-a", email := "a@example.com", display_name := "A",
    role := "Individual", manager_id := some 1 }

/-- Report B of the manager. -/
def exRepB : User :=
  { id := 3, google_id := "g-b", email := "b@example.com", display_name := "B",
    role := "Individual", manager_id := some 1 }

/-- The store of the rollup example: manager M, reports A (quota 100, commit 80)
and B (no submission). -/
def exStore : Store :=
  { users := [exManager, exRepA, exRepB]
    whitelist := [{ email := "m@example.com" }, { email := "a@example.com" },
                  { email := "b@example.com" }]
    forecasts := [{ user_id := 2, period_month := { year := 2024, month := 3, day := 1 },
                    quota := some 100, commit_amount := some 80, best_case := some 90,
                    updated_at := 5 }] }

/-- The first request of the upsert example. -/
def exBody600 : ForecastBody :=
  { period := { year := 2024, month := 3, day := 1 }, quota := some 1000, commit := some 600,
    best_case := some 750 }

/-- The second request of the upsert example. -/
def exBody650 : ForecastBody :=
  { period := { year := 2024, month := 3, day := 1 }, quota := some 1000, commit := some 650,
    best_case := some 750 }

/-- A request for the fifteenth of March 2024. -/
def exBodyMid : ForecastBody :=
  { period := { year := 2024, month := 3, day := 15 }, quota := some 1000, commit := some 600,
    best_case := some 750 }

/-- A request for the twentieth of March 2024. -/
def exBodyLate : ForecastBody :=
  { period := { year := 2024, month := 3, day := 20 }, quota := some 1000, commit := some 600,
    best_case := some 750 }

/-- An identity whose email is not in the whitelist of the example store. -/
def exStranger : Profile :=
  { id := "g-z", emails := ["z@example.com"], displayName := "Z" }

/-- The identity of report A, already a user of the example store. -/
def exProfileA : Profile :=
  { id := "g-a", emails := ["a@example.com"], displayName := "A" }

/-! ## Upsert lemmas -/

theorem sameKey_iff (uid : Nat) (p : Date) (f : Forecast) :
    sameKey uid p f = true ↔ f.user_id = uid ∧ f.period_month = p := by
  simp [sameKey]

theorem sameKey_doUpdate (uid uid2 : Nat) (p p2 : Date) (q c b : Option Int) (now : Nat)
    (f : Forecast) : sameKey uid2 p2 (doUpdate uid p q c b now f) = sameKey uid2 p2 f := by
  unfold doUpdate
  split <;> rfl

theorem doUpdate_of_not_sameKey (uid : Nat) (p : Date) (q c b : Option Int) (now : Nat)
    (f : Forecast) (h : sameKey uid p f = false) : doUpdate uid p q c b now f = f := by
  simp [doUpdate, h]

theorem rowsFor_map_doUpdate (fs : List Forecast) (uid uid2 : Nat) (p p2 : Date)
    (q c b : Option Int) (now : Nat) :
    rowsFor (fs.map (doUpdate uid p q c b now)) uid2 p2
      = (rowsFor fs uid2 p2).map (doUpdate uid p q c b now) := by
  induction fs with
  | nil => rfl
  | cons f fs ih =>
    simp only [rowsFor] at ih ⊢
    simp only [List.map_cons, List.filter_cons, sameKey_doUpdate]
    split
    · simp [ih]
    · exact ih

theorem rowsFor_eq_nil_of_not_any (fs : List Forecast) (uid : Nat) (p : Date)
    (h : ¬ fs.any (sameKey uid p) = true) : rowsFor fs uid p = [] := by
  simp only [rowsFor, List.filter_eq_nil_iff]
  intro f hf hk
  exact h (List.any_eq_true.mpr ⟨f, hf, hk⟩)

theorem rowsFor_ne_nil_of_any (fs : List Forecast) (uid : Nat) (p : Date)
    (h : fs.any (sameKey uid p) = true) : rowsFor fs uid p ≠ [] := by
  obtain ⟨f, hf, hk⟩ := List.any_eq_true.mp h
  intro hnil
  have : f ∈ rowsFor fs uid p := List.mem_filter.mpr ⟨hf, hk⟩
  rw [hnil] at this
  exact List.not_mem_nil _ this

/-- The rows under the written key after an upsert into a table that held at
most one row under it: exactly the submitted row. -/
theorem rowsFor_upsert_self (fs : List Forecast) (uid : Nat) (p : Date) (q c b : Option Int)
    (now : Nat) (h : (rowsFor fs uid p).length ≤ 1) :
    rowsFor (upsertForecast fs uid p q c b now) uid p
      = [{ user_id := uid, period_month := p, quota := q, commit_amount := c, best_case := b,
           updated_at := now }] := by
  unfold upsertForecast
  split
  · rename_i hany
    rw [rowsFor_map_doUpdate]
    have hne := rowsFor_ne_nil_of_any fs uid p hany
    match hr : rowsFor fs uid p, hne, h with
    | [], hne, _ => exact absurd rfl hne
    | [g], _, _ =>
      have hg : g ∈ rowsFor fs uid p := by rw [hr]; simp
      have hk : sameKey uid p g = true := (List.mem_filter.mp hg).2
      have hk2 := (sameKey_iff uid p g).mp hk
      simp only [List.map_cons, List.map_nil, doUpdate, hk, if_true]
      simp [hk2.1, hk2.2]
    | _ :: _ :: _, _, h => simp at h
  · rename_i hany
    simp only [rowsFor, List.filter_append]
    have := rowsFor_eq_nil_of_not_any fs uid p hany
    simp only [rowsFor] at this
    simp [this, sameKey]

/-- The rows under any other key are the rows that were there. -/
theorem rowsFor_upsert_other (fs : List Forecast) (uid uid2 : Nat) (p p2 : Date)
    (q c b : Option Int) (now : Nat) (hne : ¬ (uid2 = uid ∧ p2 = p)) :
    rowsFor (upsertForecast fs uid p q c b now) uid2 p2 = rowsFor fs uid2 p2 := by
  unfold upsertForecast
  split
  · rw [rowsFor_map_doUpdate]
    have : ∀ g ∈ rowsFor fs uid2 p2, doUpdate uid p q c b now g = g := by
      intro g hg
      apply doUpdate_of_not_sameKey
      have hk := (sameKey_iff uid2 p2 g).mp (List.mem_filter.mp hg).2
      cases hs : sameKey uid p g with
      | false => rfl
      | true =>
        have hk1 := (sameKey_iff uid p g).mp hs
        exact absurd ⟨hk.1.symm.trans hk1.1, hk.2.symm.trans hk1.2⟩ hne
    rw [List.map_congr_left this]
    exact List.map_id _
  · simp only [rowsFor, List.filter_append]
    have : sameKey uid2 p2 ⟨uid, p, q, c, b, now⟩ = false := by
      rw [Bool.eq_false_iff]
      intro hs
      have hk1 := (sameKey_iff _ _ _).mp hs
      exact hne ⟨hk1.1.symm, hk1.2.symm⟩
    simp [this]

theorem filter_not_sameKey_map_doUpdate (fs : List Forecast) (uid : Nat) (p : Date)
    (q c b : Option Int) (now : Nat) :
    (fs.map (doUpdate uid p q c b now)).filter (fun f => !sameKey uid p f)
      = fs.filter (fun f => !sameKey uid p f) := by
  induction fs with
  | nil => rfl
  | cons f fs ih =>
    simp only [List.map_cons, List.filter_cons, sameKey_doUpdate]
    cases hk : sameKey uid p f with
    | true => simpa using ih
    | false => simp [doUpdate_of_not_sameKey _ _ _ _ _ _ _ hk, ih]

/-- The rows outside the written key are untouched, in their table order. -/
theorem filter_not_sameKey_upsert (fs : List Forecast) (uid : Nat) (p : Date)
    (q c b : Option Int) (now : Nat) :
    (upsertForecast fs uid p q c b now).filter (fun f => !sameKey uid p f)
      = fs.filter (fun f => !sameKey uid p f) := by
  unfold upsertForecast
  split
  · exact filter_not_sameKey_map_doUpdate fs uid p q c b now
  · simp [List.filter_append, sameKey]

theorem oneRowPerKey_upsert (fs : List Forecast) (uid : Nat) (p : Date) (q c b : Option Int)
    (now : Nat) (h : OneRowPerKey fs) : OneRowPerKey (upsertForecast fs uid p q c b now) := by
  intro uid2 p2
  by_cases hk : uid2 = uid ∧ p2 = p
  · obtain ⟨rfl, rfl⟩ := hk
    rw [rowsFor_upsert_self fs _ _ q c b now (h _ _)]
    simp
  · rw [rowsFor_upsert_other fs uid uid2 p p2 q c b now hk]
    exact h uid2 p2

/-! ## Forecast service: the upsert -/

theorem oneRowPerKey_of_length_le_one (fs : List Forecast) (h : fs.length ≤ 1) :
    OneRowPerKey fs := fun uid p =>
  Nat.le_trans (List.length_filter_le (sameKey uid p) fs) h

/-- C1: on a table with at most one row per `(user_id, period_month)`, after
`POST /api/forecast` by user `u` the table holds exactly one row under
`(u.id, period)`, carrying the submitted quota, commit and best case; the rows
under every other key are unchanged (also as a sub-list in table order); the
one-row-per-key invariant still holds; the other tables are untouched; and a
further submission for a different period leaves one row under each of the two
keys. -/
theorem postForecast_upsert (s : Store) (u : User) (body : ForecastBody) (now : Nat)
    (h : OneRowPerKey s.forecasts) :
    rowsFor (postForecast s (some u) body now).1.forecasts u.id body.period
        = [{ user_id := u.id, period_month := body.period, quota := body.quota,
             commit_amount := body.commit, best_case := body.best_case, updated_at := now }]
    ∧ (∀ uid p, ¬ (uid = u.id ∧ p = body.period) →
        rowsFor (postForecast s (some u) body now).1.forecasts uid p = rowsFor s.forecasts uid p)
    ∧ (postForecast s (some u) body now).1.forecasts.filter (fun f => !sameKey u.id body.period f)
        = s.forecasts.filter (fun f => !sameKey u.id body.period f)
    ∧ OneRowPerKey (postForecast s (some u) body now).1.forecasts
    ∧ (postForecast s (some u) body now).1.users = s.users
    ∧ (postForecast s (some u) body now).1.whitelist = s.whitelist
    ∧ (∀ (body2 : ForecastBody) (now2 : Nat), body2.period ≠ body.period →
        rowsFor (postForecast (postForecast s (some u) body now).1 (some u) body2 now2).1.forecasts
            u.id body.period
          = [{ user_id := u.id, period_month := body.period, quota := body.quota,
               commit_amount := body.commit, best_case := body.best_case, updated_at := now }]
        ∧ rowsFor (postForecast (postForecast s (some u) body now).1 (some u) body2 now2).1.forecasts
            u.id body2.period
          = [{ user_id := u.id, period_month := body2.period, quota := body2.quota,
               commit_amount := body2.commit, best_case := body2.best_case,
               updated_at := now2 }]) := by
  have hself := rowsFor_upsert_self s.forecasts u.id body.period body.quota body.commit
    body.best_case now (h _ _)
  have hinv := oneRowPerKey_upsert s.forecasts u.id body.period body.quota body.commit
    body.best_case now h
  refine ⟨hself, ?_, ?_, hinv, rfl, rfl, ?_⟩
  · intro uid p hne
    exact rowsFor_upsert_other s.forecasts u.id uid body.period p _ _ _ now hne
  · exact filter_not_sameKey_upsert s.forecasts u.id body.period _ _ _ now
  · intro body2 now2 hp
    constructor
    · show rowsFor (upsertForecast (upsertForecast s.forecasts u.id body.period body.quota
        body.commit body.best_case now) u.id body2.period body2.quota body2.commit
        body2.best_case now2) u.id body.period = _
      rw [rowsFor_upsert_other _ u.id u.id body2.period body.period _ _ _ now2
        (fun hk => hp hk.2.symm)]
      exact hself
    · exact rowsFor_upsert_self _ u.id body2.period body2.quota body2.commit
        body2.best_case now2 (hinv _ _)

/-- The upsert example: the table holds one row for A and March 2024 (commit 80,
then 600); submitting commit 650 leaves one row with `commit_amount = 650`. -/
theorem postForecast_upsert_witness :
    OneRowPerKey (postForecast exStore (some exRepA) exBody600 10).1.forecasts
    ∧ rowsFor (postForecast (postForecast exStore (some exRepA) exBody600 10).1 (some exRepA)
        exBody650 11).1.forecasts exRepA.id exBody650.period
      = [{ user_id := exRepA.id, period_month := exBody650.period, quota := exBody650.quota,
           commit_amount := exBody650.commit, best_case := exBody650.best_case,
           updated_at := 11 }] :=
  ⟨oneRowPerKey_of_length_le_one _ (by decide),
   (postForecast_upsert (postForecast exStore (some exRepA) exBody600 10).1 exRepA
      exBody650 11 (oneRowPerKey_of_length_le_one _ (by decide))).1⟩

/-! ## Forecast service: idempotence -/

theorem any_sameKey_upsert (fs : List Forecast) (uid : Nat) (p : Date) (q c b : Option Int)
    (now : Nat) : (upsertForecast fs uid p q c b now).any (sameKey uid p) = true := by
  unfold upsertForecast
  split
  · rename_i hany
    obtain ⟨f, hf, hk⟩ := List.any_eq_true.mp hany
    exact List.any_eq_true.mpr
      ⟨doUpdate uid p q c b now f, List.mem_map_of_mem _ hf, by rw [sameKey_doUpdate]; exact hk⟩
  · simp [sameKey]

theorem eraseTimestamp_doUpdate_doUpdate (uid : Nat) (p : Date) (q c b : Option Int)
    (t1 t2 : Nat) (f : Forecast) :
    eraseTimestamp (doUpdate uid p q c b t2 (doUpdate uid p q c b t1 f))
      = eraseTimestamp (doUpdate uid p q c b t1 f) := by
  cases hk : sameKey uid p f with
  | true =>
    have hk2 := (sameKey_iff uid p f).mp hk
    simp [doUpdate, sameKey, hk2.1, hk2.2, eraseTimestamp]
  | false => simp [doUpdate, hk]

/-- Writing the same values again changes timestamps only. -/
theorem map_eraseTimestamp_upsert_upsert (fs : List Forecast) (uid : Nat) (p : Date)
    (q c b : Option Int) (t1 t2 : Nat) :
    (upsertForecast (upsertForecast fs uid p q c b t1) uid p q c b t2).map eraseTimestamp
      = (upsertForecast fs uid p q c b t1).map eraseTimestamp := by
  have hany := any_sameKey_upsert fs uid p q c b t1
  rw [upsertForecast, if_pos hany]
  unfold upsertForecast
  split
  · simp only [List.map_map]
    apply List.map_congr_left
    intro f _
    exact eraseTimestamp_doUpdate_doUpdate uid p q c b t1 t2 f
  · rename_i hno
    have hfs : ∀ f ∈ fs, doUpdate uid p q c b t2 f = f := by
      intro f hf
      apply doUpdate_of_not_sameKey
      rw [Bool.eq_false_iff]
      intro hk
      exact hno (List.any_eq_true.mpr ⟨f, hf, hk⟩)
    rw [List.map_append, List.map_congr_left hfs]
    simp [doUpdate, sameKey, eraseTimestamp]

/-- C2: `POST /api/forecast` is idempotent up to `updated_at`.  Handling the
request a second time with the same user, period and values leaves `users` and
`whitelist` as they were and `forecasts` equal row by row to the table after the
first request once timestamps are set aside; both requests answer 200
`{success: true}`; and where the table held at most one row per key, it then
holds exactly one row for (user, period), with the submitted values and the
timestamp of the second request. -/
theorem postForecast_idempotent (s : Store) (u : User) (body : ForecastBody) (t1 t2 : Nat) :
    (postForecast (postForecast s (some u) body t1).1 (some u) body t2).1.users
        = (postForecast s (some u) body t1).1.users
    ∧ (postForecast (postForecast s (some u) body t1).1 (some u) body t2).1.whitelist
        = (postForecast s (some u) body t1).1.whitelist
    ∧ (postForecast (postForecast s (some u) body t1).1 (some u) body t2).1.forecasts.map
          eraseTimestamp
        = (postForecast s (some u) body t1).1.forecasts.map eraseTimestamp
    ∧ (postForecast s (some u) body t1).2 = { status := 200, body := Body.success }
    ∧ (postForecast (postForecast s (some u) body t1).1 (some u) body t2).2
        = { status := 200, body := Body.success }
    ∧ (OneRowPerKey s.forecasts →
        rowsFor (postForecast (postForecast s (some u) body t1).1 (some u) body t2).1.forecasts
            u.id body.period
          = [{ user_id := u.id, period_month := body.period, quota := body.quota,
               commit_amount := body.commit, best_case := body.best_case,
               updated_at := t2 }]) := by
  refine ⟨rfl, rfl, ?_, rfl, rfl, ?_⟩
  · exact map_eraseTimestamp_upsert_upsert s.forecasts u.id body.period body.quota body.commit
      body.best_case t1 t2
  · intro h
    exact rowsFor_upsert_self _ u.id body.period body.quota body.commit body.best_case t2
      (oneRowPerKey_upsert s.forecasts u.id body.period body.quota body.commit
        body.best_case t1 h _ _)

/-- The idempotence example: A submits the same forecast at times 10 and 11. -/
theorem postForecast_idempotent_witness :
    OneRowPerKey exStore.forecasts
    ∧ rowsFor (postForecast (postForecast exStore (some exRepA) exBody600 10).1 (some exRepA)
        exBody600 11).1.forecasts exRepA.id exBody600.period
      = [{ user_id := exRepA.id, period_month := exBody600.period, quota := exBody600.quota,
           commit_amount := exBody600.commit, best_case := exBody600.best_case,
           updated_at := 11 }] :=
  ⟨oneRowPerKey_of_length_le_one _ (by decide),
   (postForecast_idempotent exStore exRepA exBody600 10 11).2.2.2.2.2
     (oneRowPerKey_of_length_le_one _ (by decide))⟩

/-! ## Forecast service: the stored period -/

theorem firstOfMonth_eq_self_iff (d : Date) : firstOfMonth d = d ↔ d.day = 1 := by
  cases d with
  | mk y m dd =>
    simp only [firstOfMonth, Date.mk.injEq, true_and]
    exact eq_comm

/-- C3, as stated, fails: A submits a forecast dated 2024-03-15.  The row written
is dated 2024-03-15, not 2024-03-01, the row of 2024-03-01 keeps its old values,
and a further submission dated 2024-03-20 adds a third row for the same month. -/
theorem period_not_normalized :
    ¬ WritesFirstOfMonth exStore exRepA exBodyMid 10
    ∧ (postForecast exStore (some exRepA) exBodyMid 10).1.forecasts
        = [{ user_id := 2, period_month := { year := 2024, month := 3, day := 1 },
             quota := some 100, commit_amount := some 80, best_case := some 90, updated_at := 5 },
           { user_id := 2, period_month := { year := 2024, month := 3, day := 15 },
             quota := some 1000, commit_amount := some 600, best_case := some 750,
             updated_at := 10 }]
    ∧ firstOfMonth exBodyMid.period = { year := 2024, month := 3, day := 1 }
    ∧ firstOfMonth exBodyLate.period = firstOfMonth exBodyMid.period
    ∧ ((postForecast (postForecast exStore (some exRepA) exBodyMid 10).1 (some exRepA)
          exBodyLate 11).1.forecasts.map fun f => f.period_month)
        = [{ year := 2024, month := 3, day := 1 }, { year := 2024, month := 3, day := 15 },
           { year := 2024, month := 3, day := 20 }] := by
  refine ⟨?_, by decide, by decide, by decide, by decide⟩
  unfold WritesFirstOfMonth
  decide

/-- C3, amended: the server stores the submitted date itself.  On a table with at
most one row per key, the row written by `POST /api/forecast` with period `d` is
the one row under `(user, d)` and its `period_month` is `d`; when `d` is not a
first of the month nothing is written under the first of its month; `d` is the
first day of its month exactly when its day is 1, as the default of the form,
`getCurrentMonth`, is; two submissions with different dates leave one row under
each date, and two submissions with the same date leave one row. -/
theorem postForecast_period_as_submitted (s : Store) (u : User) (body : ForecastBody)
    (now : Nat) (h : OneRowPerKey s.forecasts) :
    (∃ f, rowsFor (postForecast s (some u) body now).1.forecasts u.id body.period = [f]
        ∧ f.period_month = body.period)
    ∧ (firstOfMonth body.period ≠ body.period →
        rowsFor (postForecast s (some u) body now).1.forecasts u.id (firstOfMonth body.period)
          = rowsFor s.forecasts u.id (firstOfMonth body.period))
    ∧ (firstOfMonth body.period = body.period ↔ body.period.day = 1)
    ∧ (∀ fullYear monthIndex,
        firstOfMonth (getCurrentMonth fullYear monthIndex) = getCurrentMonth fullYear monthIndex)
    ∧ (∀ (body2 : ForecastBody) (now2 : Nat), body2.period ≠ body.period →
        (rowsFor (postForecast (postForecast s (some u) body now).1 (some u) body2
            now2).1.forecasts u.id body.period).length = 1
        ∧ (rowsFor (postForecast (postForecast s (some u) body now).1 (some u) body2
            now2).1.forecasts u.id body2.period).length = 1)
    ∧ (∀ (body2 : ForecastBody) (now2 : Nat), body2.period = body.period →
        (rowsFor (postForecast (postForecast s (some u) body now).1 (some u) body2
            now2).1.forecasts u.id body.period).length = 1) := by
  have hself := rowsFor_upsert_self s.forecasts u.id body.period body.quota body.commit
    body.best_case now (h _ _)
  have hinv := oneRowPerKey_upsert s.forecasts u.id body.period body.quota body.commit
    body.best_case now h
  refine ⟨⟨_, hself, rfl⟩, ?_, firstOfMonth_eq_self_iff _, fun _ _ => rfl, ?_, ?_⟩
  · intro hne
    exact rowsFor_upsert_other s.forecasts u.id u.id body.period _ _ _ _ now
      (fun hk => hne hk.2)
  · intro body2 now2 hp
    constructor
    · show (rowsFor (upsertForecast (upsertForecast s.forecasts u.id body.period body.quota
        body.commit body.best_case now) u.id body2.period body2.quota body2.commit
        body2.best_case now2) u.id body.period).length = 1
      rw [rowsFor_upsert_other _ u.id u.id body2.period body.period _ _ _ now2
        (fun hk => hp hk.2.symm), hself]
      rfl
    · show (rowsFor (upsertForecast (upsertForecast s.forecasts u.id body.period body.quota
        body.commit body.best_case now) u.id body2.period body2.quota body2.commit
        body2.best_case now2) u.id body2.period).length = 1
      rw [rowsFor_upsert_self _ u.id body2.period body2.quota body2.commit
        body2.best_case now2 (hinv _ _)]
      rfl
  · intro body2 now2 hp
    show (rowsFor (upsertForecast (upsertForecast s.forecasts u.id body.period body.quota
      body.commit body.best_case now) u.id body2.period body2.quota body2.commit
      body2.best_case now2) u.id body.period).length = 1
    rw [hp, rowsFor_upsert_self _ u.id body.period body2.quota body2.commit
      body2.best_case now2 (hinv _ _)]
    rfl

/-- The stored-period example: A submits a forecast dated 2024-03-15. -/
theorem postForecast_period_as_submitted_witness :
    OneRowPerKey exStore.forecasts
    ∧ ∃ f, rowsFor (postForecast exStore (some exRepA) exBodyMid 10).1.forecasts exRepA.id
          exBodyMid.period = [f]
        ∧ f.period_month = exBodyMid.period :=
  ⟨oneRowPerKey_of_length_le_one _ (by decide),
   (postForecast_period_as_submitted exStore exRepA exBodyMid 10
     (oneRowPerKey_of_length_le_one _ (by decide))).1⟩

/-! ## Rollup service: which rows are returned -/

theorem filter_join_eq_forecastsOf (fs : List Forecast) (u : User) :
    fs.filter (fun f => decide (u.id = f.user_id)) = forecastsOf fs u := by
  unfold forecastsOf
  congr 1
  funext f
  exact decide_eq_decide.mpr eq_comm

theorem leftJoin_cons (u : User) (us : List User) (fs : List Forecast) :
    leftJoin (u :: us) fs = leftJoin [u] fs ++ leftJoin us fs := by
  simp [leftJoin, List.flatMap_cons]

theorem leftJoin_single_fst (u : User) (fs : List Forecast) :
    ∀ r ∈ leftJoin [u] fs, r.1 = u := by
  intro r hr
  simp only [leftJoin, List.flatMap_cons, List.flatMap_nil, List.append_nil] at hr
  split at hr
  · simp only [List.mem_singleton] at hr
    rw [hr]
  · obtain ⟨f, _, rfl⟩ := List.mem_map.mp hr
    rfl

theorem leftJoin_single_map_select (u : User) (fs : List Forecast) :
    (leftJoin [u] fs).map selectRollup = reportRows fs u := by
  simp only [leftJoin, List.flatMap_cons, List.flatMap_nil, List.append_nil, reportRows]
  rw [filter_join_eq_forecastsOf]
  split
  · rename_i heq
    simp [heq, selectRollup, nullRow]
  · rename_i m ms heq
    rw [heq, if_neg (List.cons_ne_nil m ms), List.map_map]
    apply List.map_congr_left
    intro f _
    rfl

theorem filter_managedBy_leftJoin_single (mid : Nat) (u : User) (fs : List Forecast) :
    (leftJoin [u] fs).filter (fun r => managedBy mid r.1)
      = if managedBy mid u then leftJoin [u] fs else [] := by
  split
  · rename_i hm
    apply List.filter_eq_self.mpr
    intro r hr
    rw [leftJoin_single_fst u fs r hr]
    exact hm
  · rename_i hm
    apply List.filter_eq_nil_iff.mpr
    intro r hr
    rw [leftJoin_single_fst u fs r hr]
    exact hm

/-- The rollup rows before sorting: the rows of each direct report, report by
report in table order. -/
theorem map_select_filter_leftJoin (mid : Nat) (us : List User) (fs : List Forecast) :
    ((leftJoin us fs).filter (fun r => managedBy mid r.1)).map selectRollup
      = (us.filter (managedBy mid)).flatMap (reportRows fs) := by
  induction us with
  | nil => rfl
  | cons u us ih =>
    rw [leftJoin_cons, List.filter_append, List.map_append, ih,
      filter_managedBy_leftJoin_single, List.filter_cons]
    cases hm : managedBy mid u with
    | true => simp [List.flatMap_cons, leftJoin_single_map_select]
    | false => simp

theorem rollupQuery_perm (s : Store) (mid : Nat) :
    (rollupQuery s mid).Perm ((directReports s mid).flatMap (reportRows s.forecasts)) := by
  unfold rollupQuery rollupJoined directReports
  rw [← map_select_filter_leftJoin]
  exact (List.perm_insertionSort _ _).map _

theorem nodup_periods_forecastsOf (fs : List Forecast) (h : OneRowPerKey fs) (u : User) :
    ((forecastsOf fs u).map fun f => f.period_month).Nodup := by
  rw [List.nodup_iff_count_le_one]
  intro p
  have hle := h u.id p
  have heq : List.count p ((forecastsOf fs u).map fun f => f.period_month)
      = (rowsFor fs u.id p).length := by
    rw [List.count_eq_countP, List.countP_map, List.countP_eq_length_filter]
    unfold forecastsOf rowsFor
    rw [List.filter_filter]
    congr 1
    apply List.filter_congr
    intro f _
    simp only [sameKey, Function.comp, beq_iff_eq]
    rw [Bool.and_comm]
    congr 1
  rw [heq]
  exact hle

theorem reportRows_display_name (fs : List Forecast) (u : User) :
    ∀ r ∈ reportRows fs u, r.display_name = u.display_name := by
  intro r hr
  unfold reportRows at hr
  split at hr
  · simp only [List.mem_singleton] at hr
    rw [hr]; rfl
  · obtain ⟨f, _, rfl⟩ := List.mem_map.mp hr
    rfl

theorem reportRows_ne_nil (fs : List Forecast) (u : User) : reportRows fs u ≠ [] := by
  unfold reportRows
  split
  · simp
  · rename_i hne
    simpa using hne

/-- C4: for a caller with role Manager or Admin, `GET /api/rollup` answers 200
with rows that are, up to order, the rows of the direct reports of the caller
(the users whose `manager_id` is the caller id) and of nobody else: every direct
report has a row, every row belongs to a direct report and carries its display
name; a report without forecast row gives exactly one row of nulls; a report
with `k ≥ 1` forecast rows gives exactly `k` rows, each with the quota, commit
and best case of one of them; and under the one-row-per-key invariant those
forecast rows have pairwise different periods. -/
theorem getRollup_direct_reports (s : Store) (caller : User)
    (h : caller.role = "Manager" ∨ caller.role = "Admin") :
    ∃ rs, getRollup s (some caller) = (s, { status := 200, body := Body.rows rs })
      ∧ rs.Perm ((directReports s caller.id).flatMap (reportRows s.forecasts))
      ∧ (∀ u ∈ s.users, u.manager_id = some caller.id →
          ∃ r ∈ rs, r ∈ reportRows s.forecasts u ∧ r.display_name = u.display_name)
      ∧ (∀ r ∈ rs, ∃ u ∈ s.users, u.manager_id = some caller.id
          ∧ r ∈ reportRows s.forecasts u ∧ r.display_name = u.display_name)
      ∧ (∀ u, forecastsOf s.forecasts u = [] → reportRows s.forecasts u = [nullRow u])
      ∧ (∀ u, forecastsOf s.forecasts u ≠ [] →
          reportRows s.forecasts u = (forecastsOf s.forecasts u).map (rowOf u)
          ∧ (reportRows s.forecasts u).length = (forecastsOf s.forecasts u).length)
      ∧ (OneRowPerKey s.forecasts →
          ∀ u, ((forecastsOf s.forecasts u).map fun f => f.period_month).Nodup) := by
  have hrole : ¬ caller.role = "Individual" := by
    rcases h with h | h <;> rw [h] <;> decide
  have hperm := rollupQuery_perm s caller.id
  refine ⟨rollupQuery s caller.id, ?_, hperm, ?_, ?_, ?_, ?_, ?_⟩
  · simp [getRollup, hrole]
  · intro u hu hm
    obtain ⟨r, hr⟩ := List.exists_mem_of_ne_nil _ (reportRows_ne_nil s.forecasts u)
    refine ⟨r, ?_, hr, reportRows_display_name _ _ r hr⟩
    apply hperm.symm.subset
    rw [List.mem_flatMap]
    exact ⟨u, List.mem_filter.mpr ⟨hu, by simp [managedBy, hm]⟩, hr⟩
  · intro r hr
    obtain ⟨u, hu, hru⟩ := List.mem_flatMap.mp (hperm.subset hr)
    obtain ⟨hus, hm⟩ := List.mem_filter.mp hu
    exact ⟨u, hus, by simpa [managedBy] using hm, hru, reportRows_display_name _ _ r hru⟩
  · intro u hu
    simp [reportRows, hu]
  · intro u hu
    simp [reportRows, hu]
  · intro hinv u
    exact nodup_periods_forecastsOf s.forecasts hinv u

/-- The rollup example of the specification, for the manager M. -/
theorem getRollup_direct_reports_witness :
    (exManager.role = "Manager" ∨ exManager.role = "Admin")
    ∧ ∃ rs, getRollup exStore (some exManager) = (exStore, { status := 200, body := Body.rows rs })
      ∧ rs.Perm ((directReports exStore exManager.id).flatMap (reportRows exStore.forecasts)) :=
  ⟨Or.inl (by decide),
   (getRollup_direct_reports exStore exManager (Or.inl (by decide))).imp
     fun _ hrs => ⟨hrs.1, hrs.2.1⟩⟩

/-! ## Rollup service: the order of the rows -/

theorem descNullsFirst_total (a b : Option Int) :
    descNullsFirst a b = true ∨ descNullsFirst b a = true := by
  cases a <;> cases b <;> simp [descNullsFirst]
  exact Int.le_total _ _

theorem descNullsFirst_trans (a b c : Option Int) (hab : descNullsFirst a b = true)
    (hbc : descNullsFirst b c = true) : descNullsFirst a c = true := by
  cases a <;> cases b <;> cases c <;> simp_all [descNullsFirst]
  exact Int.le_trans hbc hab

instance orderByCommitDesc_isTotal : IsTotal (User × Option Forecast) orderByCommitDesc :=
  ⟨fun a b => descNullsFirst_total (commitOf a) (commitOf b)⟩

instance orderByCommitDesc_isTrans : IsTrans (User × Option Forecast) orderByCommitDesc :=
  ⟨fun a b c => descNullsFirst_trans (commitOf a) (commitOf b) (commitOf c)⟩

theorem rollupQuery_commitDescending (s : Store) (mid : Nat) :
    CommitDescending (rollupQuery s mid) := by
  unfold CommitDescending rollupQuery rollupJoined
  rw [List.pairwise_map]
  exact List.sorted_insertionSort orderByCommitDesc _

/-- C5, as stated, fails on the example of the specification: manager M with
reports A (quota 100, commit 80) and B (no submission).  The rollup has the row
of nulls of B first and the row of A second, so the rows with a commit amount do
not come before the rows without one. -/
theorem rollup_example_null_row_first :
    dataOf (getRollup exStore (some exManager)).2
      = [{ display_name := "B", quota := none, commit_amount := none, best_case := none },
         { display_name := "A", quota := some 100, commit_amount := some 80,
           best_case := some 90 }]
    ∧ (getRollup exStore (some exManager)).2.status = 200
    ∧ ¬ NonNullCommitFirst (dataOf (getRollup exStore (some exManager)).2) := by
  refine ⟨by decide, by decide, ?_⟩
  unfold NonNullCommitFirst
  decide

/-- C5, amended: for a caller whose role is not Individual the rows of
`GET /api/rollup` are in the order of `ORDER BY f.commit_amount DESC`, in which a
null sorts as larger than every number: every row whose commit amount is null
comes before every row that has one, and the rows that have one are in
descending order of it. -/
theorem getRollup_commit_descending (s : Store) (caller : User)
    (h : caller.role ≠ "Individual") :
    ∃ rs, getRollup s (some caller) = (s, { status := 200, body := Body.rows rs })
      ∧ CommitDescending rs
      ∧ rs.Pairwise (fun a b => b.commit_amount = none → a.commit_amount = none)
      ∧ rs.Pairwise (fun a b => ∀ x y, a.commit_amount = some x → b.commit_amount = some y →
          y ≤ x) := by
  have hsorted := rollupQuery_commitDescending s caller.id
  refine ⟨rollupQuery s caller.id, ?_, hsorted, ?_, ?_⟩
  · simp [getRollup, h]
  · refine List.Pairwise.imp ?_ hsorted
    intro a b hab hb
    cases ha : a.commit_amount with
    | none => rfl
    | some x => rw [ha, hb] at hab; simp [descNullsFirst] at hab
  · refine List.Pairwise.imp ?_ hsorted
    intro a b hab x y ha hb
    rw [ha, hb] at hab
    simpa [descNullsFirst] using hab

/-- The rollup example of the specification is in that order. -/
theorem getRollup_commit_descending_witness :
    exManager.role ≠ "Individual"
    ∧ ∃ rs, getRollup exStore (some exManager)
          = (exStore, { status := 200, body := Body.rows rs })
        ∧ CommitDescending rs :=
  ⟨by decide,
   (getRollup_commit_descending exStore exManager (by decide)).imp
     fun _ hrs => ⟨hrs.1, hrs.2.1⟩⟩

/-! ## Export -/

theorem innerJoin_cons (u : User) (us : List User) (fs : List Forecast) :
    innerJoin (u :: us) fs = innerJoin [u] fs ++ innerJoin us fs := by
  simp [innerJoin, List.flatMap_cons]

theorem innerJoin_single (u : User) (fs : List Forecast) :
    innerJoin [u] fs = (forecastsOf fs u).map fun f => (u, f) := by
  simp [innerJoin, filter_join_eq_forecastsOf]

theorem filter_managedBy_innerJoin_single (mid : Nat) (u : User) (fs : List Forecast) :
    (innerJoin [u] fs).filter (fun r => managedBy mid r.1)
      = if managedBy mid u then innerJoin [u] fs else [] := by
  rw [innerJoin_single]
  split
  · rename_i hm
    apply List.filter_eq_self.mpr
    intro r hr
    obtain ⟨f, _, rfl⟩ := List.mem_map.mp hr
    exact hm
  · rename_i hm
    apply List.filter_eq_nil_iff.mpr
    intro r hr
    obtain ⟨f, _, rfl⟩ := List.mem_map.mp hr
    exact hm

/-- The records of the export: the forecast rows of each direct report, report by
report in table order. -/
theorem parse_exportQuery (s : Store) (mid : Nat) :
    parse (exportQuery s mid) = (directReports s mid).flatMap (forecastRows s.forecasts) := by
  unfold parse exportQuery directReports
  generalize s.users = us
  induction us with
  | nil => rfl
  | cons u us ih =>
    rw [innerJoin_cons, List.filter_append, List.map_append, List.map_append, ih,
      filter_managedBy_innerJoin_single, List.filter_cons]
    cases hm : managedBy mid u with
    | true =>
      simp only [if_true, List.flatMap_cons, innerJoin_single, List.map_map, forecastRows]
      congr 1
    | false => simp

theorem leftJoin_single_filterMap (u : User) (fs : List Forecast) :
    (leftJoin [u] fs).filterMap forecastRow? = forecastRows fs u := by
  simp only [leftJoin, List.flatMap_cons, List.flatMap_nil, List.append_nil, forecastRows]
  rw [filter_join_eq_forecastsOf]
  split
  · rename_i heq
    simp [heq, forecastRow?]
  · rename_i m ms heq
    rw [heq, List.filterMap_map]
    have : (forecastRow? ∘ fun f => (u, some f)) = some ∘ rowOf u := rfl
    rw [this, List.filterMap_eq_map]

theorem filterMap_filter_leftJoin (mid : Nat) (us : List User) (fs : List Forecast) :
    ((leftJoin us fs).filter (fun r => managedBy mid r.1)).filterMap forecastRow?
      = (us.filter (managedBy mid)).flatMap (forecastRows fs) := by
  induction us with
  | nil => rfl
  | cons u us ih =>
    rw [leftJoin_cons, List.filter_append, List.filterMap_append, ih,
      filter_managedBy_leftJoin_single, List.filter_cons]
    cases hm : managedBy mid u with
    | true => simp [List.flatMap_cons, leftJoin_single_filterMap]
    | false => simp

/-- The rollup rows are the export records together with one row of nulls for
every direct report that has no forecast row. -/
theorem flatMap_reportRows_perm (fs : List Forecast) (us : List User) :
    (us.flatMap (reportRows fs)).Perm
      (us.flatMap (forecastRows fs)
        ++ (us.filter fun u => decide (forecastsOf fs u = [])).map nullRow) := by
  induction us with
  | nil => exact List.Perm.refl _
  | cons u us ih =>
    simp only [List.flatMap_cons, List.filter_cons]
    by_cases hu : forecastsOf fs u = []
    · simp only [reportRows, forecastRows, hu, if_true, decide_True, List.map_nil,
        List.nil_append, List.map_cons, List.singleton_append]
      exact (List.Perm.cons _ ih).trans List.perm_middle.symm
    · simp only [reportRows, forecastRows, hu, if_false, decide_False, List.append_assoc]
      exact List.Perm.append_left _ ih

/-- C6, as stated, fails on the example of the specification: for manager M the
rollup has two rows, A and the row of nulls of B, and the export has the record
of A only; B, a direct report without forecast row, is not in the export. -/
theorem export_omits_report_without_forecast :
    ¬ ExportMatchesRollup exStore (some exManager)
    ∧ dataOf (getExport exStore (some exManager)).2
        = [{ display_name := "A", quota := some 100, commit_amount := some 80,
             best_case := some 90 }]
    ∧ dataOf (getRollup exStore (some exManager)).2
        = [{ display_name := "B", quota := none, commit_amount := none, best_case := none },
           { display_name := "A", quota := some 100, commit_amount := some 80,
             best_case := some 90 }] := by
  refine ⟨?_, by decide, by decide⟩
  intro h
  have hlen := h.length_eq
  revert hlen
  decide

/-- C6, amended: `GET /api/export` has the authorization of `GET /api/rollup`
(for every request both answer the same status and neither changes the store)
and, for a caller whose role is not Individual, answers the attachment
`forecast.csv` with the columns `display_name, quota, commit_amount, best_case`
in that order, whose records are the forecast rows of the direct reports of the
caller: as a multiset, the rollup rows that come from a forecast row.  The
rollup rows are these records together with one row of nulls for every direct
report without forecast row; such a report has no record in the export. -/
theorem getExport_inner_join (s : Store) (caller : User) (h : caller.role ≠ "Individual") :
    (∀ reqUser, (getExport s reqUser).2.status = (getRollup s reqUser).2.status
        ∧ granted (getExport s reqUser).2 = granted (getRollup s reqUser).2
        ∧ (getExport s reqUser).1 = s ∧ (getRollup s reqUser).1 = s)
    ∧ ∃ recs, getExport s (some caller)
          = (s, { status := 200,
                  body := Body.csv "forecast.csv"
                    ["display_name", "quota", "commit_amount", "best_case"] recs })
        ∧ recs = (directReports s caller.id).flatMap (forecastRows s.forecasts)
        ∧ recs.Perm ((rollupJoined s caller.id).filterMap forecastRow?)
        ∧ (dataOf (getRollup s (some caller)).2).Perm
            (recs ++ ((directReports s caller.id).filter
                fun u => decide (forecastsOf s.forecasts u = [])).map nullRow)
        ∧ (∀ u, forecastsOf s.forecasts u = [] → forecastRows s.forecasts u = []) := by
  refine ⟨?_, parse (exportQuery s caller.id), ?_, parse_exportQuery s caller.id, ?_, ?_, ?_⟩
  · intro reqUser
    cases reqUser with
    | none => exact ⟨rfl, rfl, rfl, rfl⟩
    | some u =>
      by_cases hu : u.role = "Individual"
      · simp [getExport, getRollup, hu]
      · simp [getExport, getRollup, hu, granted]
  · simp [getExport, h, csvFields]
  · rw [parse_exportQuery]
    unfold directReports rollupJoined
    rw [← filterMap_filter_leftJoin]
    exact ((List.perm_insertionSort _ _).filterMap _).symm
  · rw [parse_exportQuery]
    have hr : dataOf (getRollup s (some caller)).2 = rollupQuery s caller.id := by
      simp [getRollup, h, dataOf]
    rw [hr]
    exact (rollupQuery_perm s caller.id).trans (flatMap_reportRows_perm s.forecasts _)
  · intro u hu
    simp [forecastRows, hu]

/-- The export example: the manager M of the example store. -/
theorem getExport_inner_join_witness :
    exManager.role ≠ "Individual"
    ∧ ∃ recs, getExport exStore (some exManager)
          = (exStore, { status := 200,
                        body := Body.csv "forecast.csv"
                          ["display_name", "quota", "commit_amount", "best_case"] recs })
        ∧ recs = (directReports exStore exManager.id).flatMap (forecastRows exStore.forecasts) :=
  ⟨by decide,
   (getExport_inner_join exStore exManager (by decide)).2.imp fun _ hrs => ⟨hrs.1, hrs.2.1⟩⟩

/-! ## Auth gateway -/

theorem lt_nextUserId (us : List User) : ∀ u ∈ us, u.id < nextUserId us := by
  induction us with
  | nil => intro u hu; exact absurd hu (List.not_mem_nil u)
  | cons v vs ih =>
    intro u hu
    simp only [nextUserId, List.map_cons, List.foldr_cons] at ih ⊢
    rcases List.mem_cons.mp hu with rfl | hmem
    · exact Nat.lt_succ_of_le (Nat.le_max_left _ _)
    · exact Nat.lt_of_lt_of_le (ih u hmem) (Nat.succ_le_succ (Nat.le_max_right _ _))

theorem whitelist_filter_length_eq_zero (ws : List WhitelistEntry) (email : String) :
    (ws.filter (fun w => decide (w.email = email))).length = 0 ↔ ∀ w ∈ ws, w.email ≠ email := by
  rw [List.length_eq_zero, List.filter_eq_nil_iff]
  constructor
  · intro h w hw heq
    exact h w hw (decide_eq_true heq)
  · intro h w hw hd
    exact h w hw (of_decide_eq_true hd)

/-- What a sign-in leaves in `users`: the table as it was, or with one row added
at the end, and then only for a whitelisted email. -/
theorem verify_users (s : Store) (profile : Profile) :
    (verify s profile).1.users = s.users
    ∨ ∃ email newUser, profile.emails.head? = some email
        ∧ (∃ w ∈ s.whitelist, w.email = email)
        ∧ (∀ u ∈ s.users, u.google_id ≠ profile.id)
        ∧ newUser = { id := nextUserId s.users, google_id := profile.id, email := email,
                      display_name := profile.displayName, role := "Individual",
                      manager_id := none }
        ∧ verify s profile = ({ s with users := s.users ++ [newUser] }, Done.user newUser) := by
  unfold verify
  split
  · exact Or.inl rfl
  · rename_i email rest hemails
    split
    · exact Or.inl rfl
    · rename_i hw
      split
      · exact Or.inl rfl
      · rename_i hnone
        refine Or.inr ⟨email, _, by simp [hemails], ?_, ?_, rfl, rfl⟩
        · by_contra hcon
          apply hw
          rw [whitelist_filter_length_eq_zero]
          intro w hmem heq
          exact hcon ⟨w, hmem, heq⟩
        · intro u hu hg
          have : u ∈ s.users.filter (fun u => decide (u.google_id = profile.id)) :=
            List.mem_filter.mpr ⟨hu, decide_eq_true hg⟩
          rw [hnone] at this
          exact List.not_mem_nil u this

/-- C7: an identity whose email has no entry in `whitelist` is rejected by the
verify callback (`done(null, false)`: no user, so no session) and the store is
left as it was, whether or not a user with that provider id exists; and every
user row a sign-in adds to `users` has an email that is in `whitelist` at that
time. -/
theorem verify_rejects_non_whitelisted (s : Store) (profile : Profile) :
    (∀ email, profile.emails.head? = some email → (∀ w ∈ s.whitelist, w.email ≠ email) →
        verify s profile = (s, Done.rejected))
    ∧ (∀ u ∈ (verify s profile).1.users, u ∉ s.users → ∃ w ∈ s.whitelist, w.email = u.email) := by
  constructor
  · intro email hemail hnot
    unfold verify
    split
    · rename_i hnil
      rw [hnil] at hemail
      simp at hemail
    · rename_i e rest hemails
      rw [hemails] at hemail
      simp only [List.head?_cons, Option.some.injEq] at hemail
      subst hemail
      rw [if_pos ((whitelist_filter_length_eq_zero s.whitelist e).mpr hnot)]
  · intro u hu hnew
    rcases verify_users s profile with hsame | ⟨email, newUser, _, hw, _, hdef, hv⟩
    · rw [hsame] at hu
      exact absurd hu hnew
    · rw [hv] at hu
      rcases List.mem_append.mp hu with hold | hmem
      · exact absurd hold hnew
      · rw [List.mem_singleton] at hmem
        rw [hmem, hdef]
        exact hw

/-- The rejection example: an identity with email `z@example.com`, which is not in
the whitelist of the example store. -/
theorem verify_rejects_non_whitelisted_witness :
    exStranger.emails.head? = some "z@example.com"
    ∧ (∀ w ∈ exStore.whitelist, w.email ≠ "z@example.com")
    ∧ verify exStore exStranger = (exStore, Done.rejected) :=
  ⟨rfl, by decide,
   (verify_rejects_non_whitelisted exStore exStranger).1 "z@example.com" rfl (by decide)⟩

/-- C10: for an identity whose email is whitelisted, the verify callback returns
the existing row when a user with that provider id exists, leaving the store as
it was (role and manager included); otherwise it adds exactly one row to `users`,
with the provider id, email and display name of the identity, role `Individual`,
no manager and an id no other row has, and returns that row.  Either way at most
one row is added, the rows that were there are unchanged, and `whitelist` and
`forecasts` are untouched. -/
theorem verify_find_or_create (s : Store) (profile : Profile) (email : String)
    (hemail : profile.emails.head? = some email)
    (hw : ∃ w ∈ s.whitelist, w.email = email) :
    ((∃ u ∈ s.users, u.google_id = profile.id) →
        ∃ existing ∈ s.users, existing.google_id = profile.id
          ∧ verify s profile = (s, Done.user existing))
    ∧ ((∀ u ∈ s.users, u.google_id ≠ profile.id) →
        ∃ newUser, verify s profile = ({ s with users := s.users ++ [newUser] }, Done.user newUser)
          ∧ newUser.google_id = profile.id ∧ newUser.email = email
          ∧ newUser.display_name = profile.displayName ∧ newUser.role = "Individual"
          ∧ newUser.manager_id = none ∧ (∀ u ∈ s.users, u.id ≠ newUser.id))
    ∧ (∃ added, (verify s profile).1.users = s.users ++ added ∧ added.length ≤ 1)
    ∧ (verify s profile).1.whitelist = s.whitelist
    ∧ (verify s profile).1.forecasts = s.forecasts := by
  obtain ⟨w, hwmem, hweq⟩ := hw
  have hlen : ¬ (s.whitelist.filter (fun w => decide (w.email = email))).length = 0 := by
    rw [whitelist_filter_length_eq_zero]
    intro hall
    exact hall w hwmem hweq
  obtain ⟨rest, hemails⟩ : ∃ rest, profile.emails = email :: rest := by
    cases hp : profile.emails with
    | nil => rw [hp] at hemail; simp at hemail
    | cons e rest =>
      rw [hp] at hemail
      simp only [List.head?_cons, Option.some.injEq] at hemail
      exact ⟨rest, by rw [hemail]⟩
  refine ⟨?_, ?_, ?_, ?_, ?_⟩
  · rintro ⟨u, hu, hg⟩
    have hmem : u ∈ s.users.filter (fun u => decide (u.google_id = profile.id)) :=
      List.mem_filter.mpr ⟨hu, decide_eq_true hg⟩
    cases hf : s.users.filter (fun u => decide (u.google_id = profile.id)) with
    | nil => rw [hf] at hmem; exact absurd hmem (List.not_mem_nil u)
    | cons existing more =>
      have hex : existing ∈ s.users.filter (fun u => decide (u.google_id = profile.id)) := by
        rw [hf]; exact List.mem_cons_self _ _
      obtain ⟨hex1, hex2⟩ := List.mem_filter.mp hex
      refine ⟨existing, hex1, of_decide_eq_true hex2, ?_⟩
      simp only [verify, hemails, if_neg hlen, hf]
  · intro hnone
    have hf : s.users.filter (fun u => decide (u.google_id = profile.id)) = [] := by
      rw [List.filter_eq_nil_iff]
      intro u hu hd
      exact hnone u hu (of_decide_eq_true hd)
    refine ⟨{ id := nextUserId s.users, google_id := profile.id, email := email,
              display_name := profile.displayName, role := "Individual",
              manager_id := none }, ?_, rfl, rfl, rfl, rfl, rfl, ?_⟩
    · simp only [verify, hemails, if_neg hlen, hf]
    · intro u hu
      exact Nat.ne_of_lt (lt_nextUserId s.users u hu)
  · rcases verify_users s profile with hsame | ⟨_, newUser, _, _, _, _, hv⟩
    · exact ⟨[], by rw [hsame, List.append_nil], Nat.zero_le 1⟩
    · exact ⟨[newUser], by rw [hv], Nat.le_refl 1⟩
  · rcases verify_users s profile with hsame | ⟨_, newUser, _, _, _, _, hv⟩
    · unfold verify
      split
      · rfl
      · split
        · rfl
        · split <;> rfl
    · rw [hv]
  · rcases verify_users s profile with hsame | ⟨_, newUser, _, _, _, _, hv⟩
    · unfold verify
      split
      · rfl
      · split
        · rfl
        · split <;> rfl
    · rw [hv]

/-- The sign-in example: report A, whitelisted and already a user, signs in again. -/
theorem verify_find_or_create_witness :
    exProfileA.emails.head? = some "a@example.com"
    ∧ (∃ w ∈ exStore.whitelist, w.email = "a@example.com")
    ∧ (∃ u ∈ exStore.users, u.google_id = exProfileA.id)
    ∧ ∃ existing ∈ exStore.users, existing.google_id = exProfileA.id
        ∧ verify exStore exProfileA = (exStore, Done.user existing) :=
  ⟨rfl, by decide, by decide,
   (verify_find_or_create exStore exProfileA "a@example.com" rfl (by decide)).1 (by decide)⟩

/-! ## Access control -/

/-- C8: a request whose session user has a role that is insufficient for the
endpoint is answered 403, carries no rollup rows and no CSV records, and leaves
`users`, `whitelist` and `forecasts` as they were: role Individual on
`GET /api/rollup` and `GET /api/export`, every role other than Admin on
`POST /api/admin/whitelist`, where no whitelist row is added. -/
theorem insufficient_role_forbidden (s : Store) (u : User) (email : String) :
    (u.role = "Individual" →
        getRollup s (some u) = (s, { status := 403, body := Body.text "Access Denied" })
        ∧ getExport s (some u) = (s, { status := 403, body := Body.text "Access Denied" })
        ∧ dataOf (getRollup s (some u)).2 = []
        ∧ dataOf (getExport s (some u)).2 = [])
    ∧ (u.role ≠ "Admin" →
        postAdminWhitelist s (some u) email
          = (s, { status := 403, body := Body.text "Admin only" })
        ∧ (postAdminWhitelist s (some u) email).1.whitelist = s.whitelist) := by
  constructor
  · intro h
    simp [getRollup, getExport, h, dataOf]
  · intro h
    simp [postAdminWhitelist, h]

/-- The access-control example: report A, an Individual, calls the three
endpoints. -/
theorem insufficient_role_forbidden_witness :
    exRepA.role = "Individual" ∧ exRepA.role ≠ "Admin"
    ∧ getRollup exStore (some exRepA)
        = (exStore, { status := 403, body := Body.text "Access Denied" })
    ∧ postAdminWhitelist exStore (some exRepA) "x@example.com"
        = (exStore, { status := 403, body := Body.text "Admin only" }) :=
  ⟨by decide, by decide,
   ((insufficient_role_forbidden exStore exRepA "x@example.com").1 (by decide)).1,
   ((insufficient_role_forbidden exStore exRepA "x@example.com").2 (by decide)).1⟩

/-- C9, as stated, fails: without a session `GET /api/rollup`, `GET /api/export`
and `POST /api/admin/whitelist` answer 403, not 401; only `POST /api/forecast`
answers 401. -/
theorem no_session_status_not_401 :
    (getRollup exStore none).2.status = 403
    ∧ (getExport exStore none).2.status = 403
    ∧ (postAdminWhitelist exStore none "x@example.com").2.status = 403
    ∧ (postForecast exStore none exBody600 10).2.status = 401
    ∧ ¬ ((getRollup exStore none).2.status = 401
          ∧ (getExport exStore none).2.status = 401
          ∧ (postAdminWhitelist exStore none "x@example.com").2.status = 401
          ∧ (postForecast exStore none exBody600 10).2.status = 401) := by
  decide

/-- C9, amended: a request without a session is answered 401 `Unauthorized` by
`POST /api/forecast` and 403 by `GET /api/rollup`, `GET /api/export` and
`POST /api/admin/whitelist`, and the store is unchanged in all four cases.  The
rollup and the export answer 403 exactly when there is no session or the role of
the session user is Individual, the whitelist endpoint exactly when there is no
session or the role is not Admin, and the forecast endpoint never answers 403. -/
theorem no_session_responses (s : Store) (body : ForecastBody) (now : Nat) (email : String) :
    postForecast s none body now = (s, { status := 401, body := Body.text "Unauthorized" })
    ∧ getRollup s none = (s, { status := 403, body := Body.text "Access Denied" })
    ∧ getExport s none = (s, { status := 403, body := Body.text "Access Denied" })
    ∧ postAdminWhitelist s none email = (s, { status := 403, body := Body.text "Admin only" })
    ∧ (∀ reqUser, (getRollup s reqUser).2.status = 403
        ↔ reqUser = none ∨ ∃ u, reqUser = some u ∧ u.role = "Individual")
    ∧ (∀ reqUser, (getExport s reqUser).2.status = 403
        ↔ reqUser = none ∨ ∃ u, reqUser = some u ∧ u.role = "Individual")
    ∧ (∀ reqUser, (postAdminWhitelist s reqUser email).2.status = 403
        ↔ reqUser = none ∨ ∃ u, reqUser = some u ∧ u.role ≠ "Admin")
    ∧ (∀ reqUser, (postForecast s reqUser body now).2.status ≠ 403) := by
  refine ⟨rfl, rfl, rfl, rfl, ?_, ?_, ?_, ?_⟩
  · intro reqUser
    cases reqUser with
    | none => simp [getRollup]
    | some u =>
      by_cases hu : u.role = "Individual" <;> simp [getRollup, hu]
  · intro reqUser
    cases reqUser with
    | none => simp [getExport]
    | some u =>
      by_cases hu : u.role = "Individual" <;> simp [getExport, hu]
  · intro reqUser
    cases reqUser with
    | none => simp [postAdminWhitelist]
    | some u =>
      by_cases hu : u.role = "Admin" <;> simp [postAdminWhitelist, hu]
  · intro reqUser
    cases reqUser with
    | none => simp [postForecast]
    | some u => simp [postForecast]

end SalesForecast
